import Mathlib

/-!
Verification of the `logid` log-query client.

This file gives a shallow embedding, in Lean, of the core of the `logid`
repository (a Rust client for a cookie-authenticated multi-region log
service) and proves, or refutes, the frozen claims about it.

Conventions of the embedding:
* Rust `&str`/`String` values become Lean `String`, or `List Char` for the
  character-level redaction pipeline.
* `std::time::Instant` is modelled as an integer timestamp (in seconds);
  `Duration::from_secs` is an integer number of seconds.  `Instant::now()`
  becomes an explicit `now` parameter.
* Network I/O is modelled by passing the response (status, headers, body)
  or the fetch outcome as an explicit argument; which side effects a code
  path performs is recorded in an explicit effect trace.
* `serde_json::Value` becomes the inductive `Json` below; typed serde
  deserialization of the `types.rs` structs is translated as explicit parsers
  returning `Option`.
* Regex replacement with the fixed patterns of `client.rs` /
  `filter.rs` is translated pattern-by-pattern into executable string
  transformers implementing the (leftmost, non-overlapping, greedy)
  `Regex::replace_all` semantics of each concrete pattern, restricted to
  the ASCII whitespace classes that the patterns mention.
-/

/-! ## `config/region.rs` -/

/-- Region identifier (`Region` enum in `config/region.rs`). -/
inductive Region where
  | cn
  | i18n
  | us
deriving DecidableEq, Repr

/-- ASCII lower-casing of one character, modelling what
`str::to_lowercase` does on the ASCII inputs relevant here. -/
def lowerChar (c : Char) : Char :=
  if 65 ≤ c.toNat ∧ c.toNat ≤ 90 then Char.ofNat (c.toNat + 32) else c

/-- Lower-casing of a string (`region.to_lowercase()`). -/
def lowerStr (s : String) : String :=
  ⟨s.data.map lowerChar⟩

namespace Region

/-- `Region::from_str`: parse a region key, case-insensitively
(`match region.to_lowercase().as_str() { "cn" | "i18n" | "us" }`). -/
def from_str (region : String) : Option Region :=
  let t := lowerStr region
  if t = "cn" then some .cn
  else if t = "i18n" then some .i18n
  else if t = "us" then some .us
  else none

/-- `Region::as_str`. -/
def as_str : Region → String
  | .cn => "cn"
  | .i18n => "i18n"
  | .us => "us"

/-- `Region::cas_session_env_var`: the region-specific credential
variable name. -/
def cas_session_env_var : Region → String
  | .cn => "CAS_SESSION_CN"
  | .i18n => "CAS_SESSION_I18n"
  | .us => "CAS_SESSION_US"

/-- `Region::display_name`. -/
def display_name : Region → String
  | .cn => "中国区"
  | .i18n => "国际化区域（新加坡）"
  | .us => "美区"

end Region

theorem lowerChar_toNat_of_upper (c : Char) (h : 65 ≤ c.toNat ∧ c.toNat ≤ 90) :
    (lowerChar c).toNat = c.toNat + 32 := by
  rw [lowerChar, if_pos h]
  obtain ⟨h1, h2⟩ := h
  generalize c.toNat = n at h1 h2 ⊢
  interval_cases n <;> decide

theorem lowerChar_of_not_upper (c : Char) (h : ¬(65 ≤ c.toNat ∧ c.toNat ≤ 90)) :
    lowerChar c = c := by
  rw [lowerChar, if_neg h]

theorem lowerChar_idem (c : Char) : lowerChar (lowerChar c) = lowerChar c := by
  by_cases h : 65 ≤ c.toNat ∧ c.toNat ≤ 90
  · have ht := lowerChar_toNat_of_upper c h
    apply lowerChar_of_not_upper
    omega
  · rw [lowerChar_of_not_upper c h]
    exact lowerChar_of_not_upper c h

theorem lowerStr_idem (s : String) : lowerStr (lowerStr s) = lowerStr s := by
  unfold lowerStr
  cases s with
  | mk data =>
    simp only [List.map_map]
    congr 1
    exact List.map_congr_left fun c _ => lowerChar_idem c

/-- C10: region-key parsing is case-insensitive: parsing `s` agrees with
parsing `lowercase s`, and exactly the strings whose lowercase form is
`"cn"`, `"i18n"` or `"us"` are accepted. -/
theorem region_from_str_case_insensitive (s : String) :
    Region.from_str s = Region.from_str (lowerStr s) ∧
    (Region.from_str s).isSome =
      (lowerStr s == "cn" || lowerStr s == "i18n" || lowerStr s == "us") := by
  constructor
  · unfold Region.from_str
    rw [lowerStr_idem]
  · unfold Region.from_str
    by_cases h1 : lowerStr s = "cn"
    · simp [h1]
    · by_cases h2 : lowerStr s = "i18n"
      · simp [h1, h2]
      · by_cases h3 : lowerStr s = "us"
        · simp [h1, h2, h3]
        · simp [h1, h2, h3]

/-- Region configuration (`RegionConfig` in `config/region.rs`). -/
structure RegionConfig where
  region : Region
  log_service_url : String
  vregion : String
  zones : List String
  configured : Bool
deriving DecidableEq, Repr

namespace RegionConfig

/-- `RegionConfig::new` — always marks the region configured. -/
def new (region : Region) (log_service_url : String) (vregion : String)
    (zones : List String) : RegionConfig :=
  ⟨region, log_service_url, vregion, zones, true⟩

/-- `RegionConfig::unconfigured` — empty endpoints, `configured: false`. -/
def unconfigured (region : Region) : RegionConfig :=
  ⟨region, "", "", [], false⟩

/-- `RegionConfig::is_configured`. -/
def is_configured (self : RegionConfig) : Bool :=
  self.configured

end RegionConfig

/-- `get_region_config` in `config/region.rs`. -/
def get_region_config (region_str : String) : Option RegionConfig :=
  match Region.from_str region_str with
  | none => none
  | some .cn => some (RegionConfig.unconfigured .cn)
  | some .i18n => some (RegionConfig.new .i18n
      "https://logservice-sg.tiktok-row.org/streamlog/platform/microservice/v1/query/trace"
      "Singapore-Common,US-East,Singapore-Central"
      ["Singapore-Common", "US-East", "Singapore-Central"])
  | some .us => some (RegionConfig.new .us
      "https://logservice-tx.tiktok-us.org/streamlog/platform/microservice/v1/query/trace"
      "US-TTP,US-TTP2"
      ["US-TTP", "US-TTP2"])

/-! ## `config/jwt.rs` -/

/-- JWT token plus expiry instant (`JwtInfo`).  `expires_at` is an
integer timestamp in seconds, modelling `std::time::Instant`. -/
structure JwtInfo where
  token : String
  expires_at : Int
deriving DecidableEq, Repr

namespace JwtInfo

/-- `JwtInfo::new`: `expires_at = Instant::now() + expires_in_seconds`;
the current instant is the explicit `now` argument. -/
def new (token : String) (expires_in_seconds : Int) (now : Int) : JwtInfo :=
  ⟨token, now + expires_in_seconds⟩

/-- `JwtInfo::is_valid`: `Instant::now() < expires_at - 300s`, with the
current instant passed explicitly. -/
def is_valid (self : JwtInfo) (now : Int) : Bool :=
  now < self.expires_at - 300

end JwtInfo

/-- C2: a cached token is judged usable iff `now` is strictly below
`expires_at - 300` seconds; at exactly `expires_at - 300` it is not
usable. -/
theorem jwt_is_valid_iff_safety_margin (jwt : JwtInfo) (now : Int) :
    (jwt.is_valid now = true ↔ now < jwt.expires_at - 300) ∧
    jwt.is_valid (jwt.expires_at - 300) = false := by
  refine ⟨?_, ?_⟩
  · simp [JwtInfo.is_valid]
  · simp [JwtInfo.is_valid]

/-! ## `error.rs` -/

/-- The application error type (`LogidError`), restricted to the
constructors the verified core can produce.  Source errors that wrap
foreign error values (`serde_json::Error`, `reqwest::Error`) carry only
an abstracted message here. -/
inductive LogidError where
  | unsupportedRegion (region : String)
  | regionNotConfigured (region : String)
  | authenticationFailed (msg : String)
  | missingCredentials (msg : String)
  | queryFailed (region : String) (msg : String)
  | networkError
  | jsonParseError
  | filterConfigError (msg : String)
  | internalError (msg : String)
deriving DecidableEq, Repr

/-! ## `config/env.rs` -/

/-- The environment-variable table held by `EnvManager` (`env_vars:
HashMap<String, String>`), as an association list without duplicate
keys. -/
def EnvVars := List (String × String)

/-- `HashMap::get` on the environment table. -/
def lookupEnv (env : EnvVars) (key : String) : Option String :=
  (List.find? (fun p => p.1 == key) env).map (fun p => p.2)

/-- The message built for `LogidError::MissingCredentials` in
`EnvManager::get_cas_session`; it names the region-specific variable. -/
def missingCredentialsMsg (region_var : String) : String :=
  "未找到 " ++ region_var ++ " 或 CAS_SESSION 环境变量"

/-- `EnvManager::get_cas_session`: prefer the region-specific variable
when present and non-empty, else fall back to the generic `CAS_SESSION`
when present and non-empty, else fail with `MissingCredentials`. -/
def get_cas_session (env : EnvVars) (region : Region) : Except LogidError String :=
  let region_var := region.cas_session_env_var
  let generic : Except LogidError String :=
    match lookupEnv env "CAS_SESSION" with
    | some session =>
      if session ≠ "" then .ok session
      else .error (.missingCredentials (missingCredentialsMsg region_var))
    | none => .error (.missingCredentials (missingCredentialsMsg region_var))
  match lookupEnv env region_var with
  | some session => if session ≠ "" then .ok session else generic
  | none => generic

/-- C8: the credential lookup returns the region-specific variable when
present and non-empty, else the generic `CAS_SESSION` when present and
non-empty, and otherwise fails with a `MissingCredentials` error whose
message names the region-specific variable. -/
theorem get_cas_session_priority (env : EnvVars) (region : Region) :
    (∀ s, lookupEnv env region.cas_session_env_var = some s → s ≠ "" →
      get_cas_session env region = .ok s) ∧
    ((lookupEnv env region.cas_session_env_var = none ∨
        lookupEnv env region.cas_session_env_var = some "") →
      ∀ s, lookupEnv env "CAS_SESSION" = some s → s ≠ "" →
        get_cas_session env region = .ok s) ∧
    ((lookupEnv env region.cas_session_env_var = none ∨
        lookupEnv env region.cas_session_env_var = some "") →
      (lookupEnv env "CAS_SESSION" = none ∨
        lookupEnv env "CAS_SESSION" = some "") →
      get_cas_session env region =
        .error (.missingCredentials
          (missingCredentialsMsg region.cas_session_env_var))) := by
  refine ⟨?_, ?_, ?_⟩
  · intro s hs hne
    simp [get_cas_session, hs, hne]
  · rintro (h | h) s hs hne <;> simp [get_cas_session, h, hs, hne]
  · rintro (h | h) (h' | h') <;> simp [get_cas_session, h, h']

/-- Witness for C8 at a concrete environment: the region-specific
variable wins, and with an empty environment the lookup fails naming the
region-specific variable. -/
theorem get_cas_session_priority_witness :
    get_cas_session [("CAS_SESSION_US", "us-cookie"), ("CAS_SESSION", "generic")] .us
      = .ok "us-cookie" ∧
    get_cas_session [] .us
      = .error (.missingCredentials (missingCredentialsMsg "CAS_SESSION_US")) := by
  constructor
  · exact (get_cas_session_priority
      [("CAS_SESSION_US", "us-cookie"), ("CAS_SESSION", "generic")] .us).1
      "us-cookie" (by decide) (by decide)
  · exact (get_cas_session_priority [] .us).2.2 (.inl (by decide)) (.inl (by decide))

/-! ## `auth/manager.rs` -/

/-- Outcome of one `AuthManager::get_jwt_token` call: the returned value,
the cache contents after the call, and whether `fetch_jwt_token` ran. -/
structure GetTokenOutcome where
  result : Except LogidError String
  cache : Option JwtInfo
  fetched : Bool
deriving Repr

/-- `AuthManager::get_jwt_token`.  The cache cell (`jwt_cache`) before
the call and the outcome of `fetch_jwt_token` (were it to run) are
explicit arguments; the returned outcome records the cache cell after
the call and whether a fetch was performed.

Mirrors the source: without `force_refresh`, a valid cached token is
returned as-is; otherwise `fetch_jwt_token` runs, and only on success is
the cache overwritten (`*cache = Some(jwt_info.clone())`). -/
def get_jwt_token (force_refresh : Bool) (cache : Option JwtInfo) (now : Int)
    (fetch : Except LogidError JwtInfo) : GetTokenOutcome :=
  let doFetch : GetTokenOutcome :=
    match fetch with
    | .ok jwt_info => ⟨.ok jwt_info.token, some jwt_info, true⟩
    | .error e => ⟨.error e, cache, true⟩
  if !force_refresh then
    match cache with
    | some jwt_info =>
      if jwt_info.is_valid now then ⟨.ok jwt_info.token, cache, false⟩
      else doFetch
    | none => doFetch
  else doFetch

/-- C3: with `force_refresh = false` and a usable cached token, the
cached value is returned with no fetch and no cache change; with
`force_refresh = true` a fetch always happens, and on success the cache
is replaced wholesale by the fetched token, which is returned. -/
theorem get_jwt_token_cache_behaviour (cache : Option JwtInfo) (now : Int)
    (fetch : Except LogidError JwtInfo) :
    (∀ jwt_info, cache = some jwt_info → jwt_info.is_valid now = true →
      get_jwt_token false cache now fetch = ⟨.ok jwt_info.token, cache, false⟩) ∧
    (get_jwt_token true cache now fetch).fetched = true ∧
    (∀ jwt_info, fetch = .ok jwt_info →
      get_jwt_token true cache now fetch =
        ⟨.ok jwt_info.token, some jwt_info, true⟩) := by
  refine ⟨?_, ?_, ?_⟩
  · rintro jwt_info rfl hvalid
    simp [get_jwt_token, hvalid]
  · cases fetch <;> simp [get_jwt_token]
  · rintro jwt_info rfl
    simp [get_jwt_token]

/-- Witness for C3 at concrete inputs: a still-valid cached token is
served without fetching, and a forced refresh replaces it. -/
theorem get_jwt_token_cache_behaviour_witness :
    get_jwt_token false (some ⟨"cached", 1000⟩) 0 (.ok ⟨"fresh", 2000⟩)
      = ⟨.ok "cached", some ⟨"cached", 1000⟩, false⟩ ∧
    get_jwt_token true (some ⟨"cached", 1000⟩) 0 (.ok ⟨"fresh", 2000⟩)
      = ⟨.ok "fresh", some ⟨"fresh", 2000⟩, true⟩ := by
  constructor
  · exact (get_jwt_token_cache_behaviour (some ⟨"cached", 1000⟩) 0
      (.ok ⟨"fresh", 2000⟩)).1 ⟨"cached", 1000⟩ rfl (by decide)
  · exact (get_jwt_token_cache_behaviour (some ⟨"cached", 1000⟩) 0
      (.ok ⟨"fresh", 2000⟩)).2.2 ⟨"fresh", 2000⟩ rfl

/-- C9: `get_jwt_token` is atomic on failure — whatever the inputs, when
the underlying fetch returns an error the cache cell after the call is
exactly the cache cell before it, and whenever a fetch actually ran its
error is propagated unchanged. -/
theorem get_jwt_token_atomic_on_failure (force_refresh : Bool)
    (cache : Option JwtInfo) (now : Int) (e : LogidError) :
    (get_jwt_token force_refresh cache now (.error e)).cache = cache ∧
    ((get_jwt_token force_refresh cache now (.error e)).fetched = true →
      (get_jwt_token force_refresh cache now (.error e)).result = .error e) := by
  cases force_refresh with
  | false =>
    cases cache with
    | none => simp [get_jwt_token]
    | some jwt_info =>
      by_cases hvalid : jwt_info.is_valid now <;> simp [get_jwt_token, hvalid]
  | true => simp [get_jwt_token]

/-- Witness for C9 at a concrete failing fetch: the cache keeps its old
entry and the error comes back verbatim. -/
theorem get_jwt_token_atomic_on_failure_witness :
    (get_jwt_token true (some ⟨"old", 5⟩) 99 (.error (.authenticationFailed "boom"))).cache
      = some ⟨"old", 5⟩ ∧
    (get_jwt_token true (some ⟨"old", 5⟩) 99 (.error (.authenticationFailed "boom"))).result
      = .error (.authenticationFailed "boom") := by
  refine ⟨(get_jwt_token_atomic_on_failure true (some ⟨"old", 5⟩) 99
      (.authenticationFailed "boom")).1, ?_⟩
  exact (get_jwt_token_atomic_on_failure true (some ⟨"old", 5⟩) 99
      (.authenticationFailed "boom")).2 (by decide)

/-- `StatusCode::is_success` in reqwest: HTTP status in `200..=299`. -/
def statusIsSuccess (status : Nat) : Bool :=
  200 ≤ status ∧ status < 300

/-- An HTTP response as seen by `fetch_jwt_token`: status, body text, and
headers.  A header value is `none` when `to_str()` fails on it (a value
that is not visible ASCII), mirroring `header.to_str().ok()`.  Header
names are stored lowercased, as in reqwest's `HeaderMap`. -/
structure AuthHttpResponse where
  status : Nat
  body : String
  headers : List (String × Option String)
deriving DecidableEq, Repr

/-- `HeaderMap::get`: first header with the given (lowercase) name. -/
def getHeader (headers : List (String × Option String)) (name : String) :
    Option (Option String) :=
  (List.find? (fun p => p.1 == name) headers).map (fun p => p.2)

/-- The readable `x-jwt-token` header value, if any:
`response.headers().get("x-jwt-token").and_then(|h| h.to_str().ok())`. -/
def jwtHeaderValue (resp : AuthHttpResponse) : Option String :=
  (getHeader resp.headers "x-jwt-token").bind id

/-- The diagnostic message `format!("HTTP {}: {}", status, error_text)`
used for non-2xx authentication failures. -/
def httpFailMsg (status : Nat) (body : String) : String :=
  "HTTP " ++ toString status ++ ": " ++ body

/-- `AuthManager::fetch_jwt_token`: on a non-2xx status fail with the
status and body; on 2xx take the token from the `x-jwt-token` response
header (failing if absent or unreadable) and give it a fixed one-hour
lifetime. -/
def fetch_jwt_token (resp : AuthHttpResponse) (now : Int) :
    Except LogidError JwtInfo :=
  if ¬ statusIsSuccess resp.status then
    .error (.authenticationFailed (httpFailMsg resp.status resp.body))
  else
    match jwtHeaderValue resp with
    | some jwt_token => .ok (JwtInfo.new jwt_token 3600 now)
    | none => .error (.authenticationFailed "响应头中没有 JWT 令牌")

/-- C5: `fetch_jwt_token` succeeds iff the status is 2xx and a readable
`x-jwt-token` header is present; a non-2xx status yields an
`AuthenticationFailed` error carrying the status code and body, and a
2xx response without the token header is also an `AuthenticationFailed`
error. -/
theorem fetch_jwt_token_success_iff (resp : AuthHttpResponse) (now : Int) :
    ((fetch_jwt_token resp now).isOk = true ↔
      (statusIsSuccess resp.status = true ∧ (jwtHeaderValue resp).isSome = true)) ∧
    (statusIsSuccess resp.status = false →
      fetch_jwt_token resp now =
        .error (.authenticationFailed (httpFailMsg resp.status resp.body))) ∧
    (statusIsSuccess resp.status = true → jwtHeaderValue resp = none →
      fetch_jwt_token resp now =
        .error (.authenticationFailed "响应头中没有 JWT 令牌")) ∧
    (∀ tok, statusIsSuccess resp.status = true → jwtHeaderValue resp = some tok →
      fetch_jwt_token resp now = .ok (JwtInfo.new tok 3600 now)) := by
  refine ⟨?_, ?_, ?_, ?_⟩
  · by_cases hs : statusIsSuccess resp.status
    · cases hv : jwtHeaderValue resp <;>
        simp [fetch_jwt_token, hs, hv, Except.isOk, Except.toBool]
    · simp [fetch_jwt_token, hs, Except.isOk, Except.toBool]
  · intro hs
    simp [fetch_jwt_token, hs]
  · intro hs hv
    simp [fetch_jwt_token, hs, hv]
  · intro tok hs hv
    simp [fetch_jwt_token, hs, hv]

/-- Witness for C5 at concrete responses: 401 fails with status and
body, 200 without the header fails, 200 with the header succeeds. -/
theorem fetch_jwt_token_success_iff_witness :
    fetch_jwt_token ⟨401, "denied", []⟩ 0
      = .error (.authenticationFailed "HTTP 401: denied") ∧
    fetch_jwt_token ⟨200, "", []⟩ 0
      = .error (.authenticationFailed "响应头中没有 JWT 令牌") ∧
    fetch_jwt_token ⟨200, "", [("x-jwt-token", some "tok")]⟩ 0
      = .ok ⟨"tok", 3600⟩ := by
  refine ⟨?_, ?_, ?_⟩
  · exact (fetch_jwt_token_success_iff ⟨401, "denied", []⟩ 0).2.1 (by decide)
  · exact (fetch_jwt_token_success_iff ⟨200, "", []⟩ 0).2.2.1 (by decide) (by decide)
  · exact (fetch_jwt_token_success_iff ⟨200, "", [("x-jwt-token", some "tok")]⟩ 0).2.2.2
      "tok" (by decide) (by decide)

/-! ## `serde_json::Value` and the typed model of `log_query/types.rs` -/

/-- JSON values (`serde_json::Value`).  Numbers are restricted to the
integers, which covers every numeric field of the typed model
(`start`/`end` are `i64`). -/
inductive Json where
  | null
  | bool (b : Bool)
  | num (n : Int)
  | str (s : String)
  | arr (items : List Json)
  | obj (fields : List (String × Json))

/-- `Value::get(key)`: field lookup, `None` on non-objects. -/
def Json.get : Json → String → Option Json
  | .obj fields, key => (List.find? (fun p => p.1 == key) fields).map (fun p => p.2)
  | _, _ => none

/-- `LogKv` (`log_query/types.rs`). -/
structure LogKv where
  key : String
  value : String
  type_field : Option String
  highlight : Option Bool

/-- `LogValue`. -/
structure LogValue where
  id : String
  kv_list : List LogKv
  level : Option String

/-- `LogGroup`. -/
structure LogGroup where
  psm : Option String
  pod_name : Option String
  ipv4 : Option String
  env : Option String
  vregion : Option String
  idc : Option String

/-- `LogItem`. -/
structure LogItem where
  id : String
  group : LogGroup
  value : List LogValue

/-- `TimeRange`. -/
structure TimeRange where
  start : Option Int
  «end» : Option Int

/-- `LogMeta`; `other` is the `#[serde(flatten)]` map of the remaining
fields. -/
structure LogMeta where
  scan_time_range : Option (List TimeRange)
  level_list : Option (List String)
  other : List (String × Json)

/-- `LogData`: `items` is a required field, `meta` and `tag_infos` are
optional. -/
structure LogData where
  items : List LogItem
  meta : Option LogMeta
  tag_infos : Option (List Json)

/-! Serde-style decoding of the typed model.  Each parser returns `none`
exactly where `serde_json::from_value` would fail: a required field that
is missing or ill-typed, an optional field that is present with the
wrong type.  A present `null` deserializes an `Option` field to `None`,
and unknown fields are ignored (no `deny_unknown_fields`). -/

/-- A required `String` field. -/
def reqStr : Option Json → Option String
  | some (.str s) => some s
  | _ => none

/-- An optional `String` field. -/
def optStr : Option Json → Option (Option String)
  | none => some none
  | some .null => some none
  | some (.str s) => some (some s)
  | some _ => none

/-- An optional `bool` field. -/
def optBool : Option Json → Option (Option Bool)
  | none => some none
  | some .null => some none
  | some (.bool b) => some (some b)
  | some _ => none

/-- An optional `i64` field. -/
def optInt : Option Json → Option (Option Int)
  | none => some none
  | some .null => some none
  | some (.num n) => some (some n)
  | some _ => none

/-- Decode a `LogKv`. -/
def parseLogKv (j : Json) : Option LogKv :=
  match j with
  | .obj _ => do
    let key ← reqStr (j.get "key")
    let value ← reqStr (j.get "value")
    let type_field ← optStr (j.get "type")
    let highlight ← optBool (j.get "highlight")
    pure ⟨key, value, type_field, highlight⟩
  | _ => none

/-- Decode a `LogValue`. -/
def parseLogValue (j : Json) : Option LogValue :=
  match j with
  | .obj _ => do
    let id ← reqStr (j.get "id")
    let kv_list ←
      match j.get "kv_list" with
      | some (.arr xs) => xs.mapM parseLogKv
      | _ => none
    let level ← optStr (j.get "level")
    pure ⟨id, kv_list, level⟩
  | _ => none

/-- Decode a `LogGroup`. -/
def parseLogGroup (j : Json) : Option LogGroup :=
  match j with
  | .obj _ => do
    let psm ← optStr (j.get "psm")
    let pod_name ← optStr (j.get "pod_name")
    let ipv4 ← optStr (j.get "ipv4")
    let env ← optStr (j.get "env")
    let vregion ← optStr (j.get "vregion")
    let idc ← optStr (j.get "idc")
    pure ⟨psm, pod_name, ipv4, env, vregion, idc⟩
  | _ => none

/-- Decode a `LogItem`. -/
def parseLogItem (j : Json) : Option LogItem :=
  match j with
  | .obj _ => do
    let id ← reqStr (j.get "id")
    let group ←
      match j.get "group" with
      | some g => parseLogGroup g
      | none => none
    let value ←
      match j.get "value" with
      | some (.arr xs) => xs.mapM parseLogValue
      | _ => none
    pure ⟨id, group, value⟩
  | _ => none

/-- Decode a `TimeRange`. -/
def parseTimeRange (j : Json) : Option TimeRange :=
  match j with
  | .obj _ => do
    let s ← optInt (j.get "start")
    let e ← optInt (j.get "end")
    pure ⟨s, e⟩
  | _ => none

/-- Decode a `LogMeta`, collecting the non-declared fields into the
flattened `other` map. -/
def parseLogMeta (j : Json) : Option LogMeta :=
  match j with
  | .obj fields => do
    let scan_time_range ←
      match j.get "scan_time_range" with
      | none => some none
      | some .null => some none
      | some (.arr xs) => (xs.mapM parseTimeRange).map some
      | some _ => none
    let level_list ←
      match j.get "level_list" with
      | none => some none
      | some .null => some none
      | some (.arr xs) => (xs.mapM (fun x => reqStr (some x))).map some
      | some _ => none
    let other := fields.filter
      (fun p => p.1 ≠ "scan_time_range" ∧ p.1 ≠ "level_list")
    pure ⟨scan_time_range, level_list, other⟩
  | _ => none

/-- Decode a `LogData`; `items` is required, so an object without an
`items` array fails to decode. -/
def parseLogData (j : Json) : Option LogData :=
  match j with
  | .obj _ => do
    let items ←
      match j.get "items" with
      | some (.arr xs) => xs.mapM parseLogItem
      | _ => none
    let meta ←
      match j.get "meta" with
      | none => some none
      | some .null => some none
      | some m => (parseLogMeta m).map some
    let tag_infos ←
      match j.get "tag_infos" with
      | none => some none
      | some .null => some none
      | some (.arr xs) => some (some xs)
      | some _ => none
    pure ⟨items, meta, tag_infos⟩
  | _ => none

/-! ## `log_query/client.rs`: response normalization and the query
pipeline -/

/-- Lines 179–193 of `client.rs`: the cascading probe that picks which
JSON object the typed `LogData` is decoded from.  Branch for branch:

* `data` present and `data.items` present → the `data` object;
* `data` present, `data.items` absent, top-level `items` present → the
  top-level object;
* `data` present, `data.items` absent, top-level `items` absent → the
  final `else` still yields the `data` object;
* no `data`, top-level `items` present → the top-level object;
* neither → the literal `{"items": []}`. -/
def resolveData (response_data : Json) : Json :=
  match response_data.get "data" with
  | some outer_data =>
    if (outer_data.get "items").isSome then outer_data
    else if (outer_data.get "items").isNone ∧ (response_data.get "items").isSome then
      response_data
    else outer_data
  | none =>
    if (response_data.get "items").isSome then response_data
    else .obj [("items", .arr [])]

/-- `serde_json::from_value::<Vec<serde_json::Value>>(v).ok()`, used for
the top-level `tag_infos`. -/
def parseJsonArray : Json → Option (List Json)
  | .arr xs => some xs
  | _ => none

/-- The caller-facing `LogQueryResponse` of `types.rs` (the `timestamp`,
`region` and `region_display_name` strings are passed through from the
arguments of `query_logs`). -/
structure LogQueryResponse where
  data : Option LogData
  meta : Option Json
  tag_infos : Option (List Json)
  timestamp : String
  region : String
  region_display_name : String

/-- Lines 179–208 of `LogQueryClient::query_logs`: resolve the payload
object, decode it as `LogData` (failure is a `JsonParseError`), and
attach the top-level `meta` and the top-level `tag_infos` (the latter
only when it deserializes as a JSON array). -/
def query_logs_normalize (response_data : Json) (region : String)
    (region_display_name : String) (timestamp : String) :
    Except LogidError LogQueryResponse :=
  let data := resolveData response_data
  match parseLogData data with
  | none => .error .jsonParseError
  | some d =>
    .ok ⟨some d, response_data.get "meta",
      (response_data.get "tag_infos").bind parseJsonArray,
      timestamp, region, region_display_name⟩

/-- Counterexample to C1 as stated.  First: for the 2xx response body
`{"data": {}}` neither a `data.items` array nor a top-level `items`
field is present, yet `query_logs` does not degrade to an empty item
list — the final `else` of the probe hands the `data` object itself to
the `LogData` decoder, whose required `items` field is missing, so the
call fails with a `JsonParseError`.  Second: a top-level `tag_infos`
that is present but not a JSON array (here the number `5`, next to a
well-formed `data.items`) is not attached to the successful result. -/
theorem query_logs_normalize_shape_counterexample :
    (((Json.obj [("data", Json.obj [])]).get "data").bind (fun d => d.get "items")
        = none ∧
      (Json.obj [("data", Json.obj [])]).get "items" = none ∧
      query_logs_normalize (Json.obj [("data", Json.obj [])]) "us" "美区" "ts"
        = .error .jsonParseError) ∧
    ((Json.obj [("data", Json.obj [("items", Json.arr [])]),
          ("tag_infos", Json.num 5)]).get "tag_infos" = some (Json.num 5) ∧
      query_logs_normalize
          (Json.obj [("data", Json.obj [("items", Json.arr [])]),
            ("tag_infos", Json.num 5)]) "us" "美区" "ts"
        = .ok ⟨some ⟨[], none, none⟩, none, none, "ts", "us", "美区"⟩) :=
  ⟨⟨rfl, rfl, rfl⟩, rfl, rfl⟩

/-- C1 (amended): the payload priority is `data.items` first, then
top-level `items`; when a `data` field is present but neither it nor the
top level has `items`, the `data` value itself is decoded (and the call
fails if that decoding fails); only when the response has neither `data`
nor `items` does the result degrade to an empty item list without
failing.  Top-level `meta` is always attached to a successful result,
and top-level `tag_infos` is attached when it is a JSON array. -/
theorem query_logs_normalize_shape_priority (resp : Json) (r dn ts : String) :
    (∀ d, resp.get "data" = some d → (d.get "items").isSome = true →
      resolveData resp = d) ∧
    (∀ d, resp.get "data" = some d → d.get "items" = none →
      (resp.get "items").isSome = true → resolveData resp = resp) ∧
    (∀ d, resp.get "data" = some d → d.get "items" = none →
      resp.get "items" = none → resolveData resp = d) ∧
    (resp.get "data" = none → (resp.get "items").isSome = true →
      resolveData resp = resp) ∧
    (resp.get "data" = none → resp.get "items" = none →
      query_logs_normalize resp r dn ts =
        .ok ⟨some ⟨[], none, none⟩, resp.get "meta",
          (resp.get "tag_infos").bind parseJsonArray, ts, r, dn⟩) ∧
    (∀ res, query_logs_normalize resp r dn ts = .ok res →
      res.meta = resp.get "meta" ∧
      res.tag_infos = (resp.get "tag_infos").bind parseJsonArray) := by
  refine ⟨?_, ?_, ?_, ?_, ?_, ?_⟩
  · intro d hd hitems
    simp [resolveData, hd, hitems]
  · intro d hd hnone hitems
    simp [resolveData, hd, hnone, hitems]
  · intro d hd hnone hnone'
    simp [resolveData, hd, hnone, hnone']
  · intro hd hitems
    simp [resolveData, hd, hitems]
  · intro hd hitems
    have hres : resolveData resp = .obj [("items", .arr [])] := by
      simp [resolveData, hd, hitems]
    unfold query_logs_normalize
    rw [hres]
    rfl
  · intro res h
    simp only [query_logs_normalize] at h
    cases hp : parseLogData (resolveData resp) with
    | none => rw [hp] at h; exact absurd h (by simp)
    | some d =>
      rw [hp] at h
      simp only [Except.ok.injEq] at h
      subst h
      exact ⟨rfl, rfl⟩

/-- Witness for C1 (amended) at a concrete response with neither `data`
nor `items`: the call succeeds with an empty item list. -/
theorem query_logs_normalize_shape_priority_witness :
    query_logs_normalize (Json.obj []) "us" "美区" "ts"
      = .ok ⟨some ⟨[], none, none⟩, none, none, "ts", "us", "美区"⟩ :=
  (query_logs_normalize_shape_priority (Json.obj []) "us" "美区" "ts").2.2.2.2.1
    rfl rfl

/-- Rendering of `LogidError` (the `thiserror` `Display` formats of
`error.rs`, with foreign payloads abstracted away). -/
def LogidError.display : LogidError → String
  | .unsupportedRegion r => "不支持的区域: " ++ r
  | .regionNotConfigured r => "区域 " ++ r ++ " 未配置，请提供相应的日志服务配置"
  | .authenticationFailed m => "认证失败: " ++ m
  | .missingCredentials m => "缺少认证凭据: " ++ m
  | .queryFailed r m => "日志查询失败 [区域: " ++ r ++ "]: " ++ m
  | .networkError => "网络请求失败"
  | .jsonParseError => "JSON 解析失败"
  | .filterConfigError m => "过滤配置文件格式错误: " ++ m
  | .internalError m => "内部错误: " ++ m

/-- Side effects a `query_logs` call can perform, in order. -/
inductive QueryEffect where
  | tokenFetch
  | httpPost
deriving DecidableEq, Repr

/-- The HTTP response of the log-service POST: status, raw body text
(read on the failure path) and the body decoded as JSON (`none` models a
body on which `response.json()` fails, which the source maps to
`NetworkError`). -/
structure QueryHttpResponse where
  status : Nat
  body_text : String
  body_json : Option Json

/-- `LogQueryClient::query_logs`, as a function of the region
configuration, the `get_jwt_token(false)` outcome and the HTTP response,
returning the trace of performed effects together with the result.
The configured-check comes before the token acquisition, which comes
before the POST. -/
def query_logs (cfg : RegionConfig) (region : String) (region_display_name : String)
    (tokenRes : Except LogidError String) (resp : QueryHttpResponse)
    (timestamp : String) :
    List QueryEffect × Except LogidError LogQueryResponse :=
  if ¬ cfg.is_configured then
    ([], .error (.regionNotConfigured region))
  else
    match tokenRes with
    | .error e =>
      ([.tokenFetch], .error (.authenticationFailed
        ("获取 " ++ region ++ " 区域 JWT 令牌失败: " ++ e.display)))
    | .ok _jwt_token =>
      if ¬ statusIsSuccess resp.status then
        ([.tokenFetch, .httpPost],
          .error (.queryFailed region (httpFailMsg resp.status resp.body_text)))
      else
        match resp.body_json with
        | none => ([.tokenFetch, .httpPost], .error .networkError)
        | some body =>
          ([.tokenFetch, .httpPost],
            query_logs_normalize body region region_display_name timestamp)

/-- C4: on a region whose configuration is not marked configured,
`query_logs` fails with `RegionNotConfigured` naming the region, with an
empty effect trace — no token acquisition and no HTTP request. -/
theorem query_logs_unconfigured_region (cfg : RegionConfig)
    (region region_display_name : String) (tokenRes : Except LogidError String)
    (resp : QueryHttpResponse) (timestamp : String)
    (h : cfg.is_configured = false) :
    query_logs cfg region region_display_name tokenRes resp timestamp
      = ([], .error (.regionNotConfigured region)) := by
  simp [query_logs, h]

/-- Witness for C4: the unconfigured `cn` region config fails without
any effect, even with a working token and response at hand. -/
theorem query_logs_unconfigured_region_witness :
    (RegionConfig.unconfigured .cn).is_configured = false ∧
    query_logs (RegionConfig.unconfigured .cn) "cn" "中国区" (.ok "tok")
      ⟨200, "", some (Json.obj [])⟩ "ts"
      = ([], .error (.regionNotConfigured "cn")) :=
  ⟨rfl, query_logs_unconfigured_region (RegionConfig.unconfigured .cn) "cn" "中国区"
    (.ok "tok") ⟨200, "", some (Json.obj [])⟩ "ts" rfl⟩

/-! ## The redaction pipeline (`filter_message_content`, lines 297–314 of
`client.rs`)

The pipeline applies the configured regex filters in order (each
replacing its matches with the empty string) and then three whitespace
cleanup steps with fixed regexes.  The two cleanup regexes are
translated here as executable list transformers implementing
`Regex::replace_all` for those exact patterns:

* `[ \t]{2,}` → `" "`: the matches are exactly the maximal runs of two
  or more horizontal whitespace characters, each replaced by one space;
* `\n\s*\n\s*\n` → `"\n\n"`: a greedy leftmost match starts at the
  first newline of a maximal whitespace run containing at least three
  newlines and ends at the last newline of that run, so each such run
  segment (from its first to its last newline) is replaced by exactly
  two newlines, keeping the non-newline whitespace before the first and
  after the last newline.

Whitespace classes are the ASCII sets the patterns denote. -/

/-- The regex class `[ \t]` (horizontal whitespace). -/
def isHws (c : Char) : Bool :=
  c == ' ' || c == '\t'

/-- The ASCII part of the regex class `\s` (also what `str::trim`
removes on ASCII input). -/
def isWs (c : Char) : Bool :=
  c == ' ' || c == '\t' || c == '\n' || c == '\r' || c == '\x0b' || c == '\x0c'

theorem isWs_of_isHws {c : Char} (h : isHws c = true) : isWs c = true := by
  rcases Bool.or_eq_true_iff.mp h with h' | h' <;> simp [isWs, h']

/-- `replace_all` of `[ \t]{2,}` with `" "`: each maximal run of 2+
horizontal whitespace characters becomes a single space. -/
def collapse_hws : List Char → List Char
  | [] => []
  | c :: rest =>
    if isHws c ∧ rest.head?.any isHws then
      ' ' :: collapse_hws (rest.dropWhile isHws)
    else
      c :: collapse_hws rest
termination_by s => s.length
decreasing_by
  · have h := (List.dropWhile_sublist (l := rest) isHws).length_le
    simp only [List.length_cons]
    omega
  · simp only [List.length_cons]
    omega

/-- Rewriting of one maximal whitespace run by the `\n\s*\n\s*\n` →
`"\n\n"` replacement: when the run holds at least three newlines, the
segment from its first to its last newline collapses to two newlines. -/
def nlRun (run : List Char) : List Char :=
  if 3 ≤ run.count '\n' then
    run.takeWhile (fun c => c != '\n') ++ '\n' :: '\n' ::
      (run.reverse.takeWhile (fun c => c != '\n')).reverse
  else run

/-- `replace_all` of `\n\s*\n\s*\n` with `"\n\n"`, processed maximal
whitespace run by maximal whitespace run. -/
def collapse_newlines : List Char → List Char
  | [] => []
  | c :: rest =>
    if isWs c then
      nlRun (c :: rest.takeWhile isWs) ++ collapse_newlines (rest.dropWhile isWs)
    else
      c :: collapse_newlines rest
termination_by s => s.length
decreasing_by
  · have h := (List.dropWhile_sublist (l := rest) isWs).length_le
    simp only [List.length_cons]
    omega
  · simp only [List.length_cons]
    omega

/-- Trailing-whitespace removal (the right half of `str::trim`). -/
def trimRight : List Char → List Char
  | [] => []
  | c :: rest =>
    let r := trimRight rest
    if r.isEmpty ∧ isWs c then [] else c :: r

/-- `str::trim`: strip leading and trailing whitespace. -/
def trim (s : List Char) : List Char :=
  trimRight (s.dropWhile isWs)

/-- Apply the configured filters in list order, each replacing all its
matches with the empty string (each compiled `Regex` is embedded as the
string transformer its `replace_all` denotes). -/
def applyFilters (message_filters : List (List Char → List Char))
    (s : List Char) : List Char :=
  message_filters.foldl (fun acc f => f acc) s

/-- `LogQueryClient::filter_message_content`: the filters in order, then
the horizontal-whitespace collapse, then the newline collapse, then the
trim — exactly the statement sequence of the source. -/
def filter_message_content (message_filters : List (List Char → List Char))
    (message : List Char) : List Char :=
  let filtered := applyFilters message_filters message
  let filtered := collapse_hws filtered
  let filtered := collapse_newlines filtered
  trim filtered

/-! Spec-side formulations of the two whitespace-collapse steps, written
as one-pass state machines rather than run-splitting recursions, for the
refinement statement of the pipeline order. -/

/-- State machine for "collapse every run of 2 or more horizontal
whitespace characters to a single space"; the flag records being inside
a run whose single replacement space has already been emitted. -/
def hwsSpecGo : Bool → List Char → List Char
  | _, [] => []
  | inRun, c :: rest =>
    if isHws c then
      if inRun then hwsSpecGo true rest
      else if rest.head?.any isHws then ' ' :: hwsSpecGo true rest
      else c :: hwsSpecGo false rest
    else c :: hwsSpecGo false rest

/-- Spec formulation of the horizontal-whitespace collapse. -/
def collapse_hws_spec (s : List Char) : List Char :=
  hwsSpecGo false s

/-- Accumulator machine for "collapse runs of 3 or more newlines,
allowing intervening whitespace-only content, down to exactly two";
`buf` is the reversed whitespace run read so far. -/
def nlSpecGo (buf : List Char) : List Char → List Char
  | [] => nlRun buf.reverse
  | c :: rest =>
    if isWs c then nlSpecGo (c :: buf) rest
    else nlRun buf.reverse ++ c :: nlSpecGo [] rest

/-- Spec formulation of the newline collapse. -/
def collapse_newlines_spec (s : List Char) : List Char :=
  nlSpecGo [] s

theorem hwsSpecGo_true (s : List Char) :
    hwsSpecGo true s = hwsSpecGo false (s.dropWhile isHws) := by
  induction s with
  | nil => rfl
  | cons c rest ih =>
    by_cases h : isHws c
    · simp [hwsSpecGo, h, ih, List.dropWhile_cons]
    · simp [hwsSpecGo, h, List.dropWhile_cons]

theorem collapse_hws_eq_spec (s : List Char) :
    collapse_hws s = collapse_hws_spec s := by
  unfold collapse_hws_spec
  induction s using collapse_hws.induct with
  | case1 => simp [collapse_hws, hwsSpecGo]
  | case2 c rest h ih =>
    rw [collapse_hws]
    rw [if_pos h, ih, ← hwsSpecGo_true]
    have hc : isHws c = true := h.1
    have hr : rest.head?.any isHws = true := h.2
    simp [hwsSpecGo, hc, hr]
  | case3 c rest h ih =>
    rw [collapse_hws, if_neg h, ih]
    by_cases hc : isHws c = true
    · have hr : rest.head?.any isHws = false := by
        by_contra hr'
        exact h ⟨hc, by revert hr'; cases rest.head?.any isHws <;> simp⟩
      simp [hwsSpecGo, hc, hr]
    · simp [hwsSpecGo, hc]

theorem nlSpecGo_run (s : List Char) : ∀ buf : List Char,
    nlSpecGo buf s = nlRun (buf.reverse ++ s.takeWhile isWs) ++
      (match s.dropWhile isWs with
        | [] => []
        | c :: rest => c :: nlSpecGo [] rest) := by
  induction s with
  | nil => intro buf; simp [nlSpecGo]
  | cons c rest ih =>
    intro buf
    by_cases h : isWs c
    · rw [show nlSpecGo buf (c :: rest) = nlSpecGo (c :: buf) rest by
        simp [nlSpecGo, h]]
      rw [ih (c :: buf)]
      simp [h, List.takeWhile_cons, List.dropWhile_cons, List.append_assoc]
    · simp [nlSpecGo, h, List.takeWhile_cons, List.dropWhile_cons]

theorem collapse_newlines_eq_spec (s : List Char) :
    collapse_newlines s = collapse_newlines_spec s := by
  unfold collapse_newlines_spec
  induction s using collapse_newlines.induct with
  | case1 => simp [collapse_newlines, nlSpecGo, nlRun]
  | case2 c rest h ih =>
    rw [collapse_newlines, if_pos h, ih, nlSpecGo_run (c :: rest) []]
    have h1 : List.takeWhile isWs (c :: rest) = c :: List.takeWhile isWs rest := by
      simp [List.takeWhile_cons, h]
    have h2 : List.dropWhile isWs (c :: rest) = List.dropWhile isWs rest := by
      simp [List.dropWhile_cons, h]
    rw [h1, h2]
    simp only [List.reverse_nil, List.nil_append]
    congr 1
    cases hd : rest.dropWhile isWs with
    | nil => simp [nlSpecGo, nlRun]
    | cons c' rest' =>
      have hc' : isWs c' = false := by
        have := List.head?_dropWhile_not isWs rest
        rw [hd] at this
        simpa using this
      simp [nlSpecGo, hc', nlRun]
  | case3 c rest h ih =>
    rw [collapse_newlines, if_neg h, ih]
    have hc : isWs c = false := by
      revert h; cases isWs c <;> simp
    simp [nlSpecGo, hc, nlRun]

/-- C6: the redaction pipeline equals, in this fixed order, the
composition of (1) all configured pattern removals in list order, then
(2) the horizontal-whitespace collapse, then (3) the newline-run
collapse, then (4) the trim — the whitespace cleanup running only after
every pattern removal. -/
theorem filter_message_content_pipeline_order
    (message_filters : List (List Char → List Char)) (message : List Char) :
    filter_message_content message_filters message =
      trim (collapse_newlines_spec (collapse_hws_spec
        (applyFilters message_filters message))) := by
  show trim (collapse_newlines (collapse_hws (applyFilters message_filters message)))
    = _
  rw [collapse_hws_eq_spec, collapse_newlines_eq_spec]

/-! ## The default filter patterns of `config/filter.rs`

`get_default_filters` lists seven patterns; `create_message_filters`
compiles each with `Regex::new`, and `filter_message_content` runs each
compiled regex's `replace_all(_, "")`.  Each pattern's `replace_all` is
embedded below as an executable scanner (leftmost match, non-overlapping
continuation, greedy/lazy exactly as the pattern dictates).  The
scanners recurse on an explicit fuel initialized to the input length,
which bounds the number of scan steps (every step consumes at least one
character). -/

/-- The character `\x7b` (opening curly brace). -/
def lbraceChar : Char := Char.ofNat 123

/-- The character `\x7d` (closing curly brace). -/
def rbraceChar : Char := Char.ofNat 125

/-- `replace_all` of a literal pattern with `""`: drop each leftmost,
non-overlapping occurrence. -/
def removeLitGo (pat : List Char) : Nat → List Char → List Char
  | _, [] => []
  | 0, s => s
  | fuel + 1, c :: rest =>
    if pat.isPrefixOf (c :: rest) then
      removeLitGo pat fuel (List.drop pat.length (c :: rest))
    else
      c :: removeLitGo pat fuel rest

/-- `replace_all` of a literal (non-empty) pattern with `""`. -/
def removeLit (pat : List Char) (s : List Char) : List Char :=
  removeLitGo pat s.length s

/-- The literal prefix `"KEY":` of the key-value patterns. -/
def keyPre (key : List Char) : List Char :=
  '"' :: (key ++ '"' :: ':' :: [])

/-- Try to match `(?m)"KEY":\s*"[^"]*"` at the head of `s`; on success
return the remainder after the match.  `\s*` is greedy but must be
followed by `"`, and `[^"]*` runs to the next `"`. -/
def tryKeyMatch (key : List Char) (s : List Char) : Option (List Char) :=
  if (keyPre key).isPrefixOf s then
    match (List.drop (keyPre key).length s).dropWhile isWs with
    | '"' :: s3 =>
      match s3.dropWhile (fun c => c != '"') with
      | '"' :: s4 => some s4
      | _ => none
    | _ => none
  else none

/-- `replace_all` of `(?m)"KEY":\s*"[^"]*"` with `""`. -/
def removeKeyGo (key : List Char) : Nat → List Char → List Char
  | _, [] => []
  | 0, s => s
  | fuel + 1, c :: rest =>
    match tryKeyMatch key (c :: rest) with
    | some s' => removeKeyGo key fuel s'
    | none => c :: removeKeyGo key fuel rest

/-- `replace_all` of `(?m)"KEY":\s*"[^"]*"` with `""`, for a fixed key. -/
def removeKeyPattern (key : List Char) (s : List Char) : List Char :=
  removeKeyGo key s.length s

/-- Scan for the first `\x7d"` pair (the lazy `.*?` of the `user_extra`
pattern stops at the first closing brace followed by a quote); return
the remainder after the quote. -/
def findBraceQuote : List Char → Option (List Char)
  | [] => none
  | [_] => none
  | c1 :: c2 :: rest =>
    if c1 = rbraceChar ∧ c2 = '"' then some rest
    else findBraceQuote (c2 :: rest)

/-- Try to match `(?s)"user_extra":\s*"\x7b.*?\x7d"` at the head of
`s`; on success return the remainder after the match. -/
def tryUserExtra (s : List Char) : Option (List Char) :=
  let pre := keyPre (String.toList "user_extra")
  if pre.isPrefixOf s then
    match (List.drop pre.length s).dropWhile isWs with
    | '"' :: s2 =>
      match s2 with
      | c :: s3 => if c = lbraceChar then findBraceQuote s3 else none
      | [] => none
    | _ => none
  else none

/-- `replace_all` of the `user_extra` pattern with `""`. -/
def removeUserExtraGo : Nat → List Char → List Char
  | _, [] => []
  | 0, s => s
  | fuel + 1, c :: rest =>
    match tryUserExtra (c :: rest) with
    | some s' => removeUserExtraGo fuel s'
    | none => c :: removeUserExtraGo fuel rest

/-- `replace_all` of `(?s)"user_extra":\s*"\x7b.*?\x7d"` with `""`. -/
def removeUserExtra (s : List Char) : List Char :=
  removeUserExtraGo s.length s

/-- `get_default_filters` of `config/filter.rs`, with each of the seven
default patterns compiled to the transformer its `replace_all` denotes,
in source order. -/
def get_default_filters : List (List Char → List Char) :=
  [removeLit (String.toList "_compliance_nlp_log"),
   removeLit (String.toList "_compliance_whitelist_log"),
   removeLit (String.toList "_compliance_source=footprint"),
   removeUserExtra,
   removeKeyPattern (String.toList "LogID"),
   removeKeyPattern (String.toList "Addr"),
   removeKeyPattern (String.toList "Client")]

/-- Counterexample to C7: the default pipeline is not idempotent.  In
`_comp"LogID": "x"liance_nlp_log`, removing the `"LogID"` key-value
match (pattern 5) splices together `_compliance_nlp_log`, which pattern
1 only removes on the next run, so the second application changes the
text again. -/
theorem filter_message_content_not_idempotent :
    filter_message_content get_default_filters
        (filter_message_content get_default_filters
          (String.toList "_comp\"LogID\": \"x\"liance_nlp_log"))
      ≠ filter_message_content get_default_filters
          (String.toList "_comp\"LogID\": \"x\"liance_nlp_log") := by
  have heq : ∀ t, filter_message_content get_default_filters t =
      trim (collapse_newlines_spec (collapse_hws_spec
        (applyFilters get_default_filters t))) := by
    intro t
    show trim (collapse_newlines (collapse_hws (applyFilters get_default_filters t)))
      = _
    rw [collapse_hws_eq_spec, collapse_newlines_eq_spec]
  simp only [heq]
  decide

/-! ## Fixed points of the whitespace cleanup

The cleanup (horizontal collapse, newline collapse, trim) is idempotent;
this underlies the amended form of the idempotence claim.  `noHwsPair`
and `newlinesOk` characterize the texts the two collapse steps leave
unchanged. -/

/-- No two adjacent horizontal whitespace characters (no match of
`[ \t]{2,}`). -/
def noHwsPair : List Char → Bool
  | [] => true
  | [_] => true
  | c1 :: c2 :: rest => (!(isHws c1 && isHws c2)) && noHwsPair (c2 :: rest)

/-- Every maximal whitespace run contains at most two newlines (no
match of `\n\s*\n\s*\n`). -/
def newlinesOk : List Char → Bool
  | [] => true
  | c :: rest =>
    if isWs c then
      decide ((c :: rest.takeWhile isWs).count '\n' ≤ 2) &&
        newlinesOk (rest.dropWhile isWs)
    else newlinesOk rest
termination_by s => s.length
decreasing_by
  · have h := (List.dropWhile_sublist (l := rest) isWs).length_le
    simp only [List.length_cons]
    omega
  · simp only [List.length_cons]
    omega

theorem noHwsPair_cons_cons (a b : Char) (r : List Char) :
    noHwsPair (a :: b :: r) = ((!(isHws a && isHws b)) && noHwsPair (b :: r)) :=
  rfl

theorem noHwsPair_tail {c : Char} {s : List Char}
    (h : noHwsPair (c :: s) = true) : noHwsPair s = true := by
  cases s with
  | nil => rfl
  | cons b r =>
    rw [noHwsPair_cons_cons] at h
    exact (Bool.and_eq_true_iff.mp h).2

theorem noHwsPair_cons {a : Char} {s : List Char}
    (hb : ∀ b, s.head? = some b → (isHws a && isHws b) = false)
    (hs : noHwsPair s = true) : noHwsPair (a :: s) = true := by
  cases s with
  | nil => rfl
  | cons b r =>
    have := hb b rfl
    simp [noHwsPair, this, hs]

theorem noHwsPair_append_left {A B : List Char}
    (h : noHwsPair (A ++ B) = true) : noHwsPair A = true := by
  induction A with
  | nil => rfl
  | cons a A' ih =>
    cases A' with
    | nil => rfl
    | cons a2 A'' =>
      rw [List.cons_append, List.cons_append, noHwsPair_cons_cons] at h
      obtain ⟨h1, h2⟩ := Bool.and_eq_true_iff.mp h
      rw [← List.cons_append] at h2
      rw [noHwsPair_cons_cons]
      exact Bool.and_eq_true_iff.mpr ⟨h1, ih h2⟩

theorem noHwsPair_append_right {A B : List Char}
    (h : noHwsPair (A ++ B) = true) : noHwsPair B = true := by
  induction A with
  | nil => simpa using h
  | cons a A' ih => exact ih (noHwsPair_tail (by simpa using h))

theorem noHwsPair_append {A B : List Char}
    (hA : noHwsPair A = true) (hB : noHwsPair B = true)
    (hAB : ∀ a b, A.getLast? = some a → B.head? = some b →
      (isHws a && isHws b) = false) :
    noHwsPair (A ++ B) = true := by
  induction A with
  | nil => simpa using hB
  | cons a A' ih =>
    cases A' with
    | nil =>
      refine noHwsPair_cons (fun b hb => hAB a b rfl hb) hB
    | cons a2 A'' =>
      rw [noHwsPair_cons_cons] at hA
      obtain ⟨h1, h2⟩ := Bool.and_eq_true_iff.mp hA
      have h3 := ih h2
        (fun x y hx hy => hAB x y (by simpa [List.getLast?_cons_cons] using hx) hy)
      rw [List.cons_append, List.cons_append, noHwsPair_cons_cons, ← List.cons_append]
      exact Bool.and_eq_true_iff.mpr ⟨h1, h3⟩

theorem takeWhile_append_all {p : Char → Bool} {A B : List Char}
    (h : ∀ a ∈ A, p a = true) :
    (A ++ B).takeWhile p = A ++ B.takeWhile p := by
  induction A with
  | nil => simp
  | cons a A' ih =>
    have ha := h a (by simp)
    simp [List.takeWhile_cons, ha, ih (fun x hx => h x (by simp [hx]))]

theorem dropWhile_append_all {p : Char → Bool} {A B : List Char}
    (h : ∀ a ∈ A, p a = true) :
    (A ++ B).dropWhile p = B.dropWhile p := by
  induction A with
  | nil => simp
  | cons a A' ih =>
    have ha := h a (by simp)
    simp [List.dropWhile_cons, ha, ih (fun x hx => h x (by simp [hx]))]

theorem takeWhile_append_not {p : Char → Bool} {A B : List Char}
    (h : ¬ ∀ a ∈ A, p a = true) :
    (A ++ B).takeWhile p = A.takeWhile p := by
  induction A with
  | nil => exact absurd (by simp) h
  | cons a A' ih =>
    by_cases ha : p a = true
    · have h' : ¬ ∀ x ∈ A', p x = true := by
        intro hall
        exact h (by
          intro x hx
          rcases List.mem_cons.mp hx with rfl | hx'
          · exact ha
          · exact hall x hx')
      simp [List.takeWhile_cons, ha, ih h']
    · simp [List.takeWhile_cons, ha]

theorem dropWhile_append_not {p : Char → Bool} {A B : List Char}
    (h : ¬ ∀ a ∈ A, p a = true) :
    (A ++ B).dropWhile p = A.dropWhile p ++ B := by
  induction A with
  | nil => exact absurd (by simp) h
  | cons a A' ih =>
    by_cases ha : p a = true
    · have h' : ¬ ∀ x ∈ A', p x = true := by
        intro hall
        exact h (by
          intro x hx
          rcases List.mem_cons.mp hx with rfl | hx'
          · exact ha
          · exact hall x hx')
      simp [List.dropWhile_cons, ha, ih h']
    · simp [List.dropWhile_cons, ha]

theorem isHws_false_of_isWs_false {c : Char} (h : isWs c = false) :
    isHws c = false := by
  cases hh : isHws c with
  | false => rfl
  | true => rw [isWs_of_isHws hh] at h; exact absurd h (by simp)

theorem collapse_hws_head_not_hws {s : List Char}
    (h : ∀ b, s.head? = some b → isHws b = false) :
    ∀ b, (collapse_hws s).head? = some b → isHws b = false := by
  cases s with
  | nil => intro b hb; rw [collapse_hws] at hb; simp at hb
  | cons c rest =>
    have hc : isHws c = false := h c rfl
    intro b hb
    rw [collapse_hws, if_neg (by simp [hc])] at hb
    simp only [List.head?_cons, Option.some_inj] at hb
    rw [← hb]
    exact hc

theorem dropWhile_head_not {p : Char → Bool} (l : List Char) :
    ∀ d, (l.dropWhile p).head? = some d → p d = false := by
  intro d hd
  have := List.head?_dropWhile_not p l
  rw [hd] at this
  simpa using this

theorem noHwsPair_collapse_hws (s : List Char) :
    noHwsPair (collapse_hws s) = true := by
  induction s using collapse_hws.induct with
  | case1 => rw [collapse_hws]; rfl
  | case2 c rest h ih =>
    rw [collapse_hws, if_pos h]
    refine noHwsPair_cons ?_ ih
    intro b hb
    have hb' : isHws b = false :=
      collapse_hws_head_not_hws (dropWhile_head_not rest) b hb
    simp [hb']
  | case3 c rest h ih =>
    rw [collapse_hws, if_neg h]
    refine noHwsPair_cons ?_ ih
    intro b hb
    by_cases hc : isHws c = true
    · have hr : rest.head?.any isHws = false := by
        by_contra hr'
        rw [Bool.not_eq_false] at hr'
        exact h ⟨hc, hr'⟩
      have hrh : ∀ d, rest.head? = some d → isHws d = false := by
        intro d hd
        rw [hd] at hr
        simpa using hr
      have hb' := collapse_hws_head_not_hws hrh b hb
      simp [hb']
    · rw [Bool.not_eq_true] at hc
      simp [hc]

theorem collapse_hws_of_noHwsPair {s : List Char} (h : noHwsPair s = true) :
    collapse_hws s = s := by
  induction s using collapse_hws.induct with
  | case1 => rw [collapse_hws]
  | case2 c rest hcond ih =>
    exfalso
    obtain ⟨hc, hr⟩ := hcond
    cases hrest : rest with
    | nil => rw [hrest] at hr; simp at hr
    | cons b r =>
      rw [hrest] at hr h
      simp only [List.head?_cons, Option.any_some] at hr
      rw [noHwsPair_cons_cons] at h
      obtain ⟨h1, _⟩ := Bool.and_eq_true_iff.mp h
      rw [hc, hr] at h1
      exact absurd h1 (by simp)
  | case3 c rest hcond ih =>
    rw [collapse_hws, if_neg hcond, ih (noHwsPair_tail h)]

theorem isHws_newline : isHws '\n' = false := by decide

theorem collapse_newlines_head_not_ws {s : List Char}
    (h : ∀ b, s.head? = some b → isWs b = false) :
    ∀ b, (collapse_newlines s).head? = some b → isWs b = false := by
  cases s with
  | nil => intro b hb; rw [collapse_newlines] at hb; simp at hb
  | cons c rest =>
    have hc : isWs c = false := h c rfl
    intro b hb
    rw [collapse_newlines, if_neg (by simp [hc])] at hb
    simp only [List.head?_cons, Option.some_inj] at hb
    rw [← hb]
    exact hc

theorem noHwsPair_collapse_newlines {s : List Char} (h : noHwsPair s = true) :
    noHwsPair (collapse_newlines s) = true := by
  induction s using collapse_newlines.induct with
  | case1 => rw [collapse_newlines]; rfl
  | case2 c rest hc ih =>
    rw [collapse_newlines, if_pos hc]
    have hrest : noHwsPair rest = true := noHwsPair_tail h
    have hrest' : noHwsPair (rest.dropWhile isWs) = true := by
      obtain ⟨t, ht⟩ := List.dropWhile_suffix (l := rest) isWs
      exact noHwsPair_append_right (by rw [ht]; exact hrest)
    have hX := ih hrest'
    have hrun : noHwsPair (c :: rest.takeWhile isWs) = true := by
      refine noHwsPair_append_left (B := rest.dropWhile isWs) ?_
      rw [List.cons_append, List.takeWhile_append_dropWhile]
      exact h
    have hA : noHwsPair (nlRun (c :: rest.takeWhile isWs)) = true := by
      rw [nlRun]
      split
      · refine noHwsPair_append ?_ ?_ ?_
        · refine noHwsPair_append_left
            (B := (c :: rest.takeWhile isWs).dropWhile (fun c => c != '\n')) ?_
          rw [List.takeWhile_append_dropWhile]
          exact hrun
        · refine noHwsPair_cons ?_ (noHwsPair_cons ?_ ?_)
          · intro b hb; rw [isHws_newline]; rfl
          · intro b hb; rw [isHws_newline]; rfl
          · refine noHwsPair_append_right
              (A := ((c :: rest.takeWhile isWs).reverse.dropWhile
                (fun c => c != '\n')).reverse) ?_
            rw [← List.reverse_append, List.takeWhile_append_dropWhile,
              List.reverse_reverse]
            exact hrun
        · intro a b ha hb
          simp only [List.head?_cons, Option.some_inj] at hb
          rw [← hb, isHws_newline, Bool.and_false]
      · exact hrun
    refine noHwsPair_append hA hX ?_
    intro a b ha hb
    have hbw : isWs b = false :=
      collapse_newlines_head_not_ws (dropWhile_head_not rest) b hb
    rw [isHws_false_of_isWs_false hbw, Bool.and_false]
  | case3 c rest hc ih =>
    rw [collapse_newlines, if_neg hc]
    refine noHwsPair_cons ?_ (ih (noHwsPair_tail h))
    intro b hb
    have hcw : isWs c = false := by revert hc; cases isWs c <;> simp
    rw [isHws_false_of_isWs_false hcw, Bool.false_and]

theorem newlinesOk_cons_not_ws {c : Char} {X : List Char} (hc : isWs c = false) :
    newlinesOk (c :: X) = newlinesOk X := by
  rw [newlinesOk, if_neg (by simp [hc])]

theorem newlinesOk_wsRun_append {A X : List Char}
    (hA : ∀ a ∈ A, isWs a = true) (hA2 : A.count '\n' ≤ 2)
    (hXh : ∀ b, X.head? = some b → isWs b = false)
    (hX : newlinesOk X = true) :
    newlinesOk (A ++ X) = true := by
  cases A with
  | nil => simpa using hX
  | cons a A' =>
    have ha : isWs a = true := hA a (by simp)
    have hA' : ∀ x ∈ A', isWs x = true := fun x hx => hA x (by simp [hx])
    have htw : (A' ++ X).takeWhile isWs = A' := by
      rw [takeWhile_append_all hA']
      have hX0 : X.takeWhile isWs = [] := by
        cases X with
        | nil => rfl
        | cons b r => rw [List.takeWhile_cons, if_neg (by simp [hXh b rfl])]
      simp [hX0]
    have hdw : (A' ++ X).dropWhile isWs = X := by
      rw [dropWhile_append_all hA']
      cases X with
      | nil => rfl
      | cons b r => rw [List.dropWhile_cons, if_neg (by simp [hXh b rfl])]
    rw [List.cons_append, newlinesOk, if_pos (by simp [ha]), htw, hdw]
    simp [hX]
    exact hA2

theorem nlRun_all_ws {run : List Char} (h : ∀ a ∈ run, isWs a = true) :
    ∀ a ∈ nlRun run, isWs a = true := by
  rw [nlRun]
  split
  · intro a ha
    rcases List.mem_append.mp ha with ha | ha
    · exact h a (List.takeWhile_subset _ ha)
    · rcases List.mem_cons.mp ha with rfl | ha
      · decide
      · rcases List.mem_cons.mp ha with rfl | ha
        · decide
        · have h1 := List.takeWhile_subset (l := run.reverse)
            (fun c => c != '\n') (List.mem_reverse.mp ha)
          exact h a (List.mem_reverse.mp h1)
  · exact h

theorem nlRun_count (run : List Char) : (nlRun run).count '\n' ≤ 2 := by
  rw [nlRun]
  split
  · have h1 : (run.takeWhile (fun c => c != '\n')).count '\n' = 0 := by
      rw [List.count_eq_zero]
      intro hmem
      have := List.mem_takeWhile_imp hmem
      simp at this
    have h2 : ((run.reverse.takeWhile (fun c => c != '\n')).reverse).count '\n' = 0 := by
      rw [List.count_eq_zero]
      intro hmem
      have := List.mem_takeWhile_imp (List.mem_reverse.mp hmem)
      simp at this
    simp [List.count_append, List.count_cons, h1, h2]
  · rename_i h3
    omega

theorem newlinesOk_collapse_newlines (s : List Char) :
    newlinesOk (collapse_newlines s) = true := by
  induction s using collapse_newlines.induct with
  | case1 => rw [collapse_newlines, newlinesOk]
  | case2 c rest hc ih =>
    rw [collapse_newlines, if_pos hc]
    refine newlinesOk_wsRun_append ?_ (nlRun_count _) ?_ ih
    · apply nlRun_all_ws
      intro a ha
      rcases List.mem_cons.mp ha with rfl | ha'
      · exact hc
      · exact List.mem_takeWhile_imp ha'
    · exact fun b hb => collapse_newlines_head_not_ws (dropWhile_head_not rest) b hb
  | case3 c rest hc ih =>
    rw [collapse_newlines, if_neg hc]
    have hcw : isWs c = false := by revert hc; cases isWs c <;> simp
    rw [newlinesOk_cons_not_ws hcw]
    exact ih

theorem collapse_newlines_of_newlinesOk {s : List Char}
    (h : newlinesOk s = true) : collapse_newlines s = s := by
  induction s using collapse_newlines.induct with
  | case1 => rw [collapse_newlines]
  | case2 c rest hc ih =>
    rw [newlinesOk, if_pos hc] at h
    obtain ⟨h1, h2⟩ := Bool.and_eq_true_iff.mp h
    rw [collapse_newlines, if_pos hc, nlRun,
      if_neg (by simp only [decide_eq_true_eq] at h1; omega), ih h2,
      List.cons_append, List.takeWhile_append_dropWhile]
  | case3 c rest hc ih =>
    rw [newlinesOk, if_neg hc] at h
    rw [collapse_newlines, if_neg hc, ih h]

theorem newlinesOk_nil : newlinesOk [] = true := by rw [newlinesOk]

theorem takeWhile_all {p : Char → Bool} {l : List Char}
    (h : ∀ a ∈ l, p a = true) : l.takeWhile p = l := by
  induction l with
  | nil => rfl
  | cons a l' ih =>
    rw [List.takeWhile_cons, if_pos (h a (by simp)),
      ih (fun x hx => h x (by simp [hx]))]

theorem dropWhile_all {p : Char → Bool} {l : List Char}
    (h : ∀ a ∈ l, p a = true) : l.dropWhile p = [] := by
  induction l with
  | nil => rfl
  | cons a l' ih =>
    rw [List.dropWhile_cons, if_pos (h a (by simp)),
      ih (fun x hx => h x (by simp [hx]))]

theorem newlinesOk_append_left (s : List Char) :
    ∀ t B, s = t ++ B → newlinesOk s = true → newlinesOk t = true := by
  induction s using newlinesOk.induct with
  | case1 =>
    intro t B hs _
    cases t with
    | nil => exact newlinesOk_nil
    | cons a t' => exact absurd hs (by simp)
  | case2 c rest hc ih =>
    intro t B hs h
    cases t with
    | nil => exact newlinesOk_nil
    | cons c' t' =>
      simp only [List.cons_append] at hs
      injection hs with hs1 hs2
      subst hs1
      rw [newlinesOk, if_pos hc] at h ⊢
      obtain ⟨h1, h2⟩ := Bool.and_eq_true_iff.mp h
      by_cases hall : ∀ x ∈ t', isWs x = true
      · rw [takeWhile_all hall, dropWhile_all hall]
        refine Bool.and_eq_true_iff.mpr ⟨?_, newlinesOk_nil⟩
        rw [decide_eq_true_eq]
        rw [hs2, takeWhile_append_all hall, decide_eq_true_eq] at h1
        calc (c :: t').count '\n'
            ≤ (c :: (t' ++ B.takeWhile isWs)).count '\n' :=
              List.Sublist.count_le
                (List.Sublist.cons₂ c (List.sublist_append_left t' _)) '\n'
          _ ≤ 2 := h1
      · refine Bool.and_eq_true_iff.mpr ⟨?_, ?_⟩
        · rw [hs2, takeWhile_append_not hall] at h1
          exact h1
        · have harg : rest.dropWhile isWs = t'.dropWhile isWs ++ B := by
            rw [hs2, dropWhile_append_not hall]
          exact ih (t'.dropWhile isWs) B harg h2
  | case3 c rest hc ih =>
    intro t B hs h
    cases t with
    | nil => exact newlinesOk_nil
    | cons c' t' =>
      simp only [List.cons_append] at hs
      injection hs with hs1 hs2
      subst hs1
      rw [newlinesOk, if_neg hc] at h ⊢
      exact ih t' B hs2 h

theorem trimRight_pre (s : List Char) : ∃ B, s = trimRight s ++ B := by
  induction s with
  | nil => exact ⟨[], rfl⟩
  | cons c rest ih =>
    obtain ⟨B, hB⟩ := ih
    by_cases hcond : (trimRight rest).isEmpty ∧ isWs c
    · refine ⟨c :: rest, ?_⟩
      simp only [trimRight]
      rw [if_pos hcond, List.nil_append]
    · refine ⟨B, ?_⟩
      simp only [trimRight]
      rw [if_neg hcond, List.cons_append, ← hB]

theorem trimRight_idem (s : List Char) : trimRight (trimRight s) = trimRight s := by
  induction s with
  | nil => rfl
  | cons c rest ih =>
    by_cases hcond : (trimRight rest).isEmpty ∧ isWs c
    · simp only [trimRight]
      rw [if_pos hcond]
      rfl
    · simp only [trimRight]
      rw [if_neg hcond]
      conv_lhs => simp only [trimRight]
      rw [ih, if_neg hcond]

theorem trimRight_head (s : List Char) :
    trimRight s = [] ∨ (trimRight s).head? = s.head? := by
  cases s with
  | nil => exact .inl rfl
  | cons c rest =>
    by_cases hcond : (trimRight rest).isEmpty ∧ isWs c
    · left
      simp only [trimRight]
      rw [if_pos hcond]
    · right
      simp only [trimRight]
      rw [if_neg hcond]
      rfl

theorem trim_head_not_ws (s : List Char) :
    ∀ b, (trim s).head? = some b → isWs b = false := by
  intro b hb
  unfold trim at hb
  rcases trimRight_head (s.dropWhile isWs) with h | h
  · rw [h] at hb
    exact absurd hb (by simp)
  · rw [h] at hb
    exact dropWhile_head_not s b hb

theorem dropWhile_isWs_trim (s : List Char) :
    (trim s).dropWhile isWs = trim s := by
  cases ht : trim s with
  | nil => rfl
  | cons b r =>
    have hb : isWs b = false := trim_head_not_ws s b (by rw [ht]; rfl)
    rw [List.dropWhile_cons, if_neg (by simp [hb])]

theorem trim_trim (s : List Char) : trim (trim s) = trim s := by
  show trimRight ((trim s).dropWhile isWs) = trim s
  rw [dropWhile_isWs_trim]
  show trimRight (trimRight (s.dropWhile isWs)) = trim s
  rw [trimRight_idem]
  rfl

theorem noHwsPair_trim {s : List Char} (h : noHwsPair s = true) :
    noHwsPair (trim s) = true := by
  have h1 : noHwsPair (s.dropWhile isWs) = true := by
    obtain ⟨t, ht⟩ := List.dropWhile_suffix (l := s) isWs
    exact noHwsPair_append_right (by rw [ht]; exact h)
  unfold trim
  obtain ⟨B, hB⟩ := trimRight_pre (s.dropWhile isWs)
  exact noHwsPair_append_left (by rw [← hB]; exact h1)

theorem newlinesOk_trim {s : List Char} (h : newlinesOk s = true) :
    newlinesOk (trim s) = true := by
  have h1 : newlinesOk (s.dropWhile isWs) = true := by
    cases s with
    | nil => simpa using h
    | cons c rest =>
      by_cases hc : isWs c = true
      · rw [newlinesOk, if_pos hc] at h
        rw [List.dropWhile_cons, if_pos hc]
        exact (Bool.and_eq_true_iff.mp h).2
      · rw [List.dropWhile_cons, if_neg hc]
        exact h
  unfold trim
  obtain ⟨B, hB⟩ := trimRight_pre (s.dropWhile isWs)
  exact newlinesOk_append_left _ _ B hB h1

/-- The whitespace cleanup of `filter_message_content` after the
pattern phase: horizontal collapse, newline collapse, trim. -/
def cleanupWs (s : List Char) : List Char :=
  trim (collapse_newlines (collapse_hws s))

theorem cleanupWs_idem (s : List Char) : cleanupWs (cleanupWs s) = cleanupWs s := by
  have hnp : noHwsPair (cleanupWs s) = true :=
    noHwsPair_trim (noHwsPair_collapse_newlines (noHwsPair_collapse_hws s))
  have hnl : newlinesOk (cleanupWs s) = true :=
    newlinesOk_trim (newlinesOk_collapse_newlines (collapse_hws s))
  show trim (collapse_newlines (collapse_hws (cleanupWs s))) = cleanupWs s
  rw [collapse_hws_of_noHwsPair hnp, collapse_newlines_of_newlinesOk hnl]
  exact trim_trim (collapse_newlines (collapse_hws s))

/-- C7 (amended): the default pipeline is not idempotent in general —
removal by a later default pattern can splice together a match of an
earlier one (see the counterexample) — but a second run is the identity
whenever the default patterns no longer match the once-redacted text:
the whitespace cleanup by itself is idempotent. -/
theorem filter_message_content_idempotent_when_filters_fixed
    (t : List Char)
    (h : applyFilters get_default_filters (filter_message_content get_default_filters t)
      = filter_message_content get_default_filters t) :
    filter_message_content get_default_filters
        (filter_message_content get_default_filters t)
      = filter_message_content get_default_filters t := by
  have h1 : filter_message_content get_default_filters
      (filter_message_content get_default_filters t)
      = cleanupWs (applyFilters get_default_filters
          (filter_message_content get_default_filters t)) := rfl
  rw [h1, h]
  have h2 : filter_message_content get_default_filters t
      = cleanupWs (applyFilters get_default_filters t) := rfl
  rw [h2, cleanupWs_idem]

/-- Witness for C7 (amended): on `"hello"` no default pattern matches
the redacted text, and the second run is the identity. -/
theorem filter_message_content_idempotent_when_filters_fixed_witness :
    applyFilters get_default_filters
        (filter_message_content get_default_filters (String.toList "hello"))
      = filter_message_content get_default_filters (String.toList "hello") ∧
    filter_message_content get_default_filters
        (filter_message_content get_default_filters (String.toList "hello"))
      = filter_message_content get_default_filters (String.toList "hello") := by
  have hhyp : applyFilters get_default_filters
      (filter_message_content get_default_filters (String.toList "hello"))
      = filter_message_content get_default_filters (String.toList "hello") := by
    have heq : filter_message_content get_default_filters (String.toList "hello") =
        trim (collapse_newlines_spec (collapse_hws_spec
          (applyFilters get_default_filters (String.toList "hello")))) := by
      show trim (collapse_newlines (collapse_hws _)) = _
      rw [collapse_hws_eq_spec, collapse_newlines_eq_spec]
    rw [heq]
    decide
  exact ⟨hhyp,
    filter_message_content_idempotent_when_filters_fixed (String.toList "hello") hhyp⟩
